import Mathlib

/-!
Verification of the InspIRCd extensible-attribute serialization framework
(`include/extensible.h` and the conn-join module) via a shallow embedding.

Byte strings are modelled as `List Nat` (one entry per byte); machine
integers are modelled as `Nat` with explicit `% 2 ^ w` truncation where the
fixed width matters.  Fallible unserialization returns `Option`; the C++
code paths that can throw are modelled in `Except`.
-/

/-- The four serialization formats of `enum SerializeFormat`:
`FORMAT_USER`, `FORMAT_INTERNAL`, `FORMAT_NETWORK`, `FORMAT_PERSIST`. -/
inductive SerializeFormat where
  | user
  | internal
  | network
  | persist
deriving DecidableEq

/-- Modelled from the spec: the escape-marker byte used by the escaping
codec.  The bodies of `Ext::EscapeNulls` / `Ext::SplitUnescapeNulls` are not
part of the provided sources (only their declarations in `extensible.h`);
the spec fixes the scheme (replace embedded NUL or marker bytes by a
two-byte escape sequence) but not the concrete byte values, so the marker
is fixed here as the backslash byte 0x5C. -/
def escByte : Nat := 92

/-- Modelled from the spec: `Ext::EscapeNulls` body is absent from the
sources.  Each NUL byte inside a field becomes the two-byte sequence
(marker, 48) and each marker byte becomes (marker, marker); every other
byte passes through unchanged. -/
def escapeNulls : List Nat → List Nat
  | [] => []
  | b :: rest =>
    (if b = 0 then [escByte, 48]
     else if b = escByte then [escByte, escByte]
     else [b]) ++ escapeNulls rest

/-- Modelled from the spec: the unescaping half of the codec, inverse of
`escapeNulls` on a single field.  A marker byte followed by 48 decodes to a
NUL byte, a marker followed by any other byte decodes to that byte, and a
trailing lone marker (malformed input) is dropped. -/
def unescapeNulls : List Nat → List Nat
  | [] => []
  | b :: rest =>
    if b = escByte then
      match rest with
      | [] => []
      | c :: rest2 => (if c = 48 then 0 else c) :: unescapeNulls rest2
    else b :: unescapeNulls rest

/-- Modelled from the spec: split a blob into the NUL-separated pieces, in
the style of repeated getline: each piece is the run of bytes up to the
next separator, the separator itself is consumed, and the empty blob yields
no pieces. -/
def splitNulls : List Nat → List (List Nat)
  | [] => []
  | b :: rest =>
    if b = 0 then [] :: splitNulls rest
    else
      match splitNulls rest with
      | [] => [[b]]
      | f :: fs => (b :: f) :: fs

/-- Modelled from the spec: `Ext::SplitUnescapeNulls` body is absent from
the sources; per the spec header it splits on unescaped separators and
unescapes each piece. -/
def splitUnescapeNulls (l : List Nat) : List (List Nat) :=
  (splitNulls l).map unescapeNulls

/-- The encoding direction of the escaping codec as the composite
serializers use it: each field is escaped and followed by one NUL
separator (`EscapeNulls(field, os) << '\0'` in the container and pair
serializers). -/
def encodeFields : List (List Nat) → List Nat
  | [] => []
  | f :: fs => escapeNulls f ++ [0] ++ encodeFields fs

lemma escape_no_null (l : List Nat) : ∀ x ∈ escapeNulls l, x ≠ 0 := by
  induction l with
  | nil => simp [escapeNulls]
  | cons b rest ih =>
    intro x hx
    by_cases h0 : b = 0
    · simp [escapeNulls, h0, escByte] at hx
      rcases hx with h | h | h
      · omega
      · omega
      · exact ih x h
    · by_cases hE : b = escByte
      · simp [escapeNulls, h0, hE, escByte] at hx
        rcases hx with h | h
        · omega
        · exact ih x h
      · simp [escapeNulls, h0, hE] at hx
        rcases hx with h | h
        · omega
        · exact ih x h

lemma unescape_escape (l : List Nat) : unescapeNulls (escapeNulls l) = l := by
  induction l with
  | nil => rfl
  | cons b rest ih =>
    by_cases h0 : b = 0
    · simp [escapeNulls, h0, unescapeNulls, escByte, ih]
    · by_cases hE : b = escByte
      · simp [escapeNulls, h0, hE, unescapeNulls, escByte, ih]
      · have hcons : escapeNulls (b :: rest) = b :: escapeNulls rest := by
          simp [escapeNulls, h0, hE]
        rw [hcons]
        cases hr : escapeNulls rest with
        | nil =>
          have hrest : rest = [] := by
            rw [hr] at ih
            simpa [unescapeNulls] using ih.symm
          subst hrest
          simp [unescapeNulls, hE]
        | cons c tl =>
          rw [hr] at ih
          simp [unescapeNulls, hE, ih]

lemma splitNulls_append (f t : List Nat) (hf : ∀ x ∈ f, x ≠ 0) :
    splitNulls (f ++ 0 :: t) = f :: splitNulls t := by
  induction f with
  | nil => simp [splitNulls]
  | cons b f' ih =>
    have hb : b ≠ 0 := hf b (by simp)
    have ih' := ih (fun x hx => hf x (by simp [hx]))
    simp [splitNulls, hb, ih']

lemma splitUnescape_encodeFields (xs : List (List Nat)) :
    splitUnescapeNulls (encodeFields xs) = xs := by
  induction xs with
  | nil => rfl
  | cons f fs ih =>
    have h1 : encodeFields (f :: fs) = escapeNulls f ++ 0 :: encodeFields fs := by
      simp [encodeFields]
    rw [splitUnescapeNulls, h1, splitNulls_append _ _ (escape_no_null f)]
    simp only [List.map_cons, unescape_escape]
    rw [← splitUnescapeNulls, ih]

/-- C1: decoding is a left inverse of encoding — for every sequence of
byte strings (NUL and escape-marker bytes included), splitting and
unescaping the concatenation of the escaped fields, each followed by a NUL
separator, returns exactly the original sequence; the empty sequence
encodes to the empty string, and the empty string decodes to the empty
sequence. -/
theorem c1_escaping_roundtrip (xs : List (List Nat)) :
    splitUnescapeNulls (encodeFields xs) = xs ∧
    encodeFields [] = ([] : List Nat) ∧
    splitUnescapeNulls [] = [] :=
  ⟨splitUnescape_encodeFields xs, rfl, rfl⟩

/-- `Ext::Serialize<std::string>::serialize`: identity passthrough
(`os << value`).  The `container`/`extItem` parameters of the C++ codec are
unused by this codec and omitted from the embedding. -/
def stringSerialize (format : SerializeFormat) (v : List Nat) : List Nat := v

/-- `Ext::Serialize<std::string>::unserialize`: always succeeds by wrapping
the raw text (`new value_type(value)`). -/
def stringUnserialize (format : SerializeFormat) (v : List Nat) :
    Option (List Nat) := some v

/-- `Ext::Serialize<User*>::unserialize`: unimplemented stub, always
returns `NULL`; its `serialize` emits nothing. -/
def userPtrSerialize (format : SerializeFormat) (v : Unit) : List Nat := []

/-- `Ext::Serialize<User*>::unserialize` stub: always fails. -/
def userPtrUnserialize (format : SerializeFormat) (v : List Nat) :
    Option Unit := none

/-- Little-endian fixed-width byte image of a machine integer, as written
by `os.write((const char*)&value, sizeof(T))` in
`Ext::SerializePrimitive::serialize` on the little-endian target. -/
def toLEBytes : Nat → Nat → List Nat
  | 0, _ => []
  | w + 1, n => n % 256 :: toLEBytes w (n / 256)

/-- Value of a little-endian byte list, as read back by
`*(const T*)value.c_str()` in `Ext::SerializePrimitive::unserialize`. -/
def fromLEBytes : List Nat → Nat
  | [] => 0
  | b :: rest => b % 256 + 256 * fromLEBytes rest

/-- `Ext::SerializePrimitive<T>::serialize` for an integer of byte width
`w`: the raw fixed-width object representation. -/
def serializePrimitiveNum (w : Nat) (n : Nat) : List Nat := toLEBytes w n

/-- `Ext::SerializePrimitive<T>::unserialize` for an integer of byte width
`w`: reinterpret the first `w` bytes of the text (the C++ reads `sizeof(T)`
bytes from `value.c_str()`; for texts shorter than `w` — undefined
behaviour in the source — missing bytes are modelled as zero, matching the
terminating NUL of `c_str()`).  The C++ always returns a fresh value,
never `NULL`. -/
def unserializePrimitiveNum (w : Nat) (v : List Nat) : Option Nat :=
  some (fromLEBytes (v.take w))

/-- Little-endian decimal digits of `n`, fuel-indexed (`fuel ≥ n`
suffices); used to model `ConvNumeric`. -/
def decDigitsAux : Nat → Nat → List Nat
  | 0, _ => []
  | fuel + 1, n => if n = 0 then [] else n % 10 :: decDigitsAux fuel (n / 10)

/-- Modelled from the spec: `ConvNumeric` (declared outside the provided
sources) renders a numeric value as decimal text; ASCII digit bytes,
most-significant first, with `0` rendered as a single digit. -/
def ConvNumeric (n : Nat) : List Nat :=
  if n = 0 then [48] else ((decDigitsAux n n).map (· + 48)).reverse

/-- Numeric value of a little-endian decimal digit list. -/
def ofDecDigitsLE : List Nat → Nat
  | [] => 0
  | d :: rest => d + 10 * ofDecDigitsLE rest

/-- Modelled from the spec: `ConvToNum<T>` (declared outside the provided
sources) parses decimal text back into a numeric value. -/
def ConvToNum (s : List Nat) : Nat :=
  ofDecDigitsLE ((s.map (· - 48)).reverse)

/-- `Ext::SerializeNumeric<T>::serialize` for an integer of byte width
`w`: decimal text for `FORMAT_USER`, otherwise the fixed-width binary
representation via `SerializePrimitive`. -/
def serializeNumeric (w : Nat) (format : SerializeFormat) (n : Nat) :
    List Nat :=
  if format = SerializeFormat.user then ConvNumeric n
  else serializePrimitiveNum w n

/-- `Ext::SerializeNumeric<T>::unserialize`: parse decimal for
`FORMAT_USER`, otherwise reinterpret fixed-width bytes via
`SerializePrimitive`; never fails. -/
def unserializeNumeric (w : Nat) (format : SerializeFormat) (v : List Nat) :
    Option Nat :=
  if format = SerializeFormat.user then some (ConvToNum v)
  else unserializePrimitiveNum w v

/-- `Ext::Serialize<bool>::serialize`: the literal text `true` / `false`
for `FORMAT_USER` (ASCII bytes), otherwise the one-byte binary
representation inherited from `SerializeNumeric<bool>`. -/
def serializeBool (format : SerializeFormat) (b : Bool) : List Nat :=
  if format = SerializeFormat.user then
    (if b then [116, 114, 117, 101] else [102, 97, 108, 115, 101])
  else toLEBytes 1 (if b then 1 else 0)

/-- `Ext::Serialize<bool>` unserialization, inherited from
`SerializeNumeric<bool>`: parse a decimal number for `FORMAT_USER`,
otherwise reinterpret the first byte; a nonzero value means `true`. -/
def unserializeBool (format : SerializeFormat) (v : List Nat) :
    Option Bool :=
  if format = SerializeFormat.user then some (ConvToNum v != 0)
  else some (fromLEBytes (v.take 1) != 0)

/-- `Ext::SerializeContainer::serialize` specialised to sequence
containers: each element is serialized by the element codec, escaped, and
followed by a NUL separator. -/
def serializeContainer {γ : Type} (ser : SerializeFormat → γ → List Nat)
    (format : SerializeFormat) (l : List γ) : List Nat :=
  encodeFields (l.map (ser format))

/-- `Ext::SerializeContainer::unserialize` specialised to sequence
containers (`Inserter` = `push_back`): split and unescape the blob, run
each piece through the element codec, keep the successes in order and
discard failures.  The C++ always returns a freshly built container. -/
def unserializeContainer {γ : Type}
    (unser : SerializeFormat → List Nat → Option γ)
    (format : SerializeFormat) (v : List Nat) : List γ :=
  (splitUnescapeNulls v).filterMap (unser format)

/-- The exception escaping from `std::vector::at` in
`Ext::Serialize<std::pair>::unserialize` when the index is absent. -/
inductive AtError where
  | outOfRange
deriving DecidableEq

/-- `Ext::Serialize<std::pair<T1,T2>>::serialize`: two escaped fields,
first then second, each followed by a NUL separator. -/
def serializePair {α β : Type} (s1 : SerializeFormat → α → List Nat)
    (s2 : SerializeFormat → β → List Nat) (format : SerializeFormat)
    (p : α × β) : List Nat :=
  escapeNulls (s1 format p.1) ++ [0] ++ (escapeNulls (s2 format p.2) ++ [0])

/-- `Ext::Serialize<std::pair<T1,T2>>::unserialize`: `NULL` on empty
input; otherwise split the blob and fetch fields 0 and 1 with
`std::vector::at`, which throws `std::out_of_range` when fewer than two
fields are present; if both element codecs succeed the pair is built from
the first two fields, and if either fails the result is `NULL`. -/
def unserializePair {α β : Type}
    (u1 : SerializeFormat → List Nat → Option α)
    (u2 : SerializeFormat → List Nat → Option β)
    (format : SerializeFormat) (v : List Nat) :
    Except AtError (Option (α × β)) :=
  if v = [] then Except.ok none
  else
    match (splitUnescapeNulls v).get? 0 with
    | none => Except.error AtError.outOfRange
    | some s0 =>
      match (splitUnescapeNulls v).get? 1 with
      | none => Except.error AtError.outOfRange
      | some s1 =>
        match u1 format s0, u2 format s1 with
        | some a, some b => Except.ok (some (a, b))
        | _, _ => Except.ok none

lemma toLE_length (w : Nat) : ∀ n, (toLEBytes w n).length = w := by
  induction w with
  | zero => intro n; rfl
  | succ w ih => intro n; simp [toLEBytes, ih]

lemma mod_mul_decomp (n B : Nat) (hB : 0 < B) :
    n % (256 * B) = n % 256 + 256 * (n / 256 % B) := by
  have h1 : n / 256 % B < B := Nat.mod_lt _ hB
  have h2 : n % 256 < 256 := Nat.mod_lt _ (by omega)
  conv_lhs => rw [← Nat.div_add_mod n 256, ← Nat.div_add_mod (n / 256) B]
  rw [Nat.mul_add, ← Nat.mul_assoc, Nat.add_assoc, Nat.mul_add_mod]
  rw [Nat.mod_eq_of_lt (by omega)]
  omega

lemma fromLE_toLE (w : Nat) : ∀ n, fromLEBytes (toLEBytes w n) = n % 256 ^ w := by
  induction w with
  | zero => intro n; simp [toLEBytes, fromLEBytes, Nat.mod_one]
  | succ w ih =>
    intro n
    have hB : 0 < (256 : Nat) ^ w := Nat.pos_pow_of_pos w (by omega)
    simp only [toLEBytes, fromLEBytes, ih]
    rw [pow_succ', mod_mul_decomp n _ hB, Nat.mod_mod_of_dvd n (dvd_refl 256)]

lemma take_toLE (w n : Nat) : (toLEBytes w n).take w = toLEBytes w n :=
  List.take_of_length_le (le_of_eq (toLE_length w n))

lemma decDigitsAux_lt (fuel : Nat) : ∀ n, ∀ d ∈ decDigitsAux fuel n, d < 10 := by
  induction fuel with
  | zero => intro n d hd; simp [decDigitsAux] at hd
  | succ fuel ih =>
    intro n d hd
    by_cases hn : n = 0
    · simp [decDigitsAux, hn] at hd
    · simp [decDigitsAux, hn] at hd
      rcases hd with h | h
      · omega
      · exact ih _ d h

lemma ofDec_decDigitsAux (fuel : Nat) : ∀ n, n ≤ fuel →
    ofDecDigitsLE (decDigitsAux fuel n) = n := by
  induction fuel with
  | zero =>
    intro n hn
    have h0 : n = 0 := by omega
    subst h0
    rfl
  | succ fuel ih =>
    intro n hn
    by_cases h0 : n = 0
    · simp [decDigitsAux, h0, ofDecDigitsLE]
    · have hlt : n / 10 < n := Nat.div_lt_self (by omega) (by omega)
      have hle : n / 10 ≤ fuel := by omega
      simp [decDigitsAux, h0, ofDecDigitsLE, ih _ hle]
      omega

lemma ConvToNum_ConvNumeric (n : Nat) : ConvToNum (ConvNumeric n) = n := by
  by_cases h0 : n = 0
  · simp [ConvNumeric, ConvToNum, h0, ofDecDigitsLE]
  · simp only [ConvNumeric, ConvToNum, h0, if_false]
    simp only [List.map_reverse, List.reverse_reverse, List.map_map]
    have hmap : ((fun x => x - 48) ∘ fun x => x + 48) = (id : Nat → Nat) := by
      funext d
      simp
    rw [hmap, List.map_id]
    exact ofDec_decDigitsAux n n le_rfl

lemma filterMap_roundtrip {γ : Type} (u : List Nat → Option γ)
    (s : γ → List Nat) (l : List γ) (h : ∀ x ∈ l, u (s x) = some x) :
    (l.map s).filterMap u = l := by
  induction l with
  | nil => rfl
  | cons x xs ih =>
    have hx := h x (by simp)
    have ih' := ih (fun y hy => h y (by simp [hy]))
    simp [List.filterMap_cons, hx, ih']

lemma splitUnescape_serializePair {α β : Type}
    (s1 : SerializeFormat → α → List Nat) (s2 : SerializeFormat → β → List Nat)
    (format : SerializeFormat) (p : α × β) :
    splitUnescapeNulls (serializePair s1 s2 format p) =
      [s1 format p.1, s2 format p.2] := by
  have h : serializePair s1 s2 format p =
      encodeFields [s1 format p.1, s2 format p.2] := by
    simp [serializePair, encodeFields]
  rw [h, splitUnescape_encodeFields]

lemma serializePair_ne_nil {α β : Type}
    (s1 : SerializeFormat → α → List Nat) (s2 : SerializeFormat → β → List Nat)
    (format : SerializeFormat) (p : α × β) :
    serializePair s1 s2 format p ≠ [] := by
  simp [serializePair]

/-- C4: round-trip of the composite codecs — for any element codec that
round-trips its elements at a given format, the sequence-container codec
reproduces the original list (escaping included), and the pair codec
reproduces the original pair; the string codec round-trips unconditionally.
The claim's concrete instance (integers `[1, 2, 300]`, `Internal` format,
4-byte fixed-width binary elements whose NUL bytes survive the container
packing) is the witness below. -/
theorem c4_serialize_roundtrip {α β γ : Type}
    (ser : SerializeFormat → γ → List Nat)
    (unser : SerializeFormat → List Nat → Option γ)
    (s1 : SerializeFormat → α → List Nat)
    (u1 : SerializeFormat → List Nat → Option α)
    (s2 : SerializeFormat → β → List Nat)
    (u2 : SerializeFormat → List Nat → Option β)
    (format : SerializeFormat) (l : List γ) (p : α × β)
    (hl : ∀ x ∈ l, unser format (ser format x) = some x)
    (h1 : u1 format (s1 format p.1) = some p.1)
    (h2 : u2 format (s2 format p.2) = some p.2) :
    unserializeContainer unser format (serializeContainer ser format l) = l ∧
    unserializePair u1 u2 format (serializePair s1 s2 format p) =
      Except.ok (some p) ∧
    (∀ v : List Nat, stringUnserialize format (stringSerialize format v) = some v) := by
  refine ⟨?_, ?_, fun v => rfl⟩
  · rw [serializeContainer, unserializeContainer, splitUnescape_encodeFields]
    exact filterMap_roundtrip (unser format) (ser format) l hl
  · obtain ⟨a, b⟩ := p
    rw [unserializePair, if_neg (serializePair_ne_nil s1 s2 format (a, b))]
    rw [splitUnescape_serializePair s1 s2 format (a, b)]
    simp only [List.get?] at *
    simp [h1, h2]

/-- Witness for C4: the concrete container example from the claim — the
list `[1, 2, 300]` of 4-byte integers serialized at `Internal` format and
unserialized again is `[1, 2, 300]` — and a pair of strings at `Persist`
format. -/
theorem c4_serialize_roundtrip_witness :
    unserializeContainer (unserializeNumeric 4) SerializeFormat.internal
      (serializeContainer (serializeNumeric 4) SerializeFormat.internal
        [1, 2, 300]) = [1, 2, 300] ∧
    unserializePair stringUnserialize stringUnserialize SerializeFormat.persist
      (serializePair stringSerialize stringSerialize SerializeFormat.persist
        ([30], [103])) = Except.ok (some ([30], [103])) := by
  constructor
  · exact (c4_serialize_roundtrip (serializeNumeric 4) (unserializeNumeric 4)
      stringSerialize stringUnserialize stringSerialize stringUnserialize
      SerializeFormat.internal [1, 2, 300] (([30] : List Nat), ([103] : List Nat))
      (by decide) (by decide) (by decide)).1
  · exact (c4_serialize_roundtrip stringSerialize stringUnserialize
      stringSerialize stringUnserialize stringSerialize stringUnserialize
      SerializeFormat.persist ([] : List (List Nat))
      (([30] : List Nat), ([103] : List Nat))
      (by simp) (by decide) (by decide)).2.1

/-- C5: the numeric/boolean format split — `FORMAT_USER` renders decimal
text (ASCII digits; booleans as the words true/false) and every other
format renders the value's fixed-width little-endian binary image of
exactly `w` bytes; unserialization mirrors the split, parsing the decimal
text back to the value for `FORMAT_USER` and reinterpreting the
fixed-width bytes (modulo the width) otherwise. -/
theorem c5_numeric_format_split (w n : Nat) (b : Bool)
    (format : SerializeFormat) (h : format ≠ SerializeFormat.user) :
    serializeNumeric w SerializeFormat.user n = ConvNumeric n ∧
    unserializeNumeric w SerializeFormat.user (ConvNumeric n) = some n ∧
    (∀ c ∈ ConvNumeric n, 48 ≤ c ∧ c ≤ 57) ∧
    serializeNumeric w format n = toLEBytes w n ∧
    (toLEBytes w n).length = w ∧
    unserializeNumeric w format (toLEBytes w n) = some (n % 256 ^ w) ∧
    serializeBool SerializeFormat.user b =
      (if b then [116, 114, 117, 101] else [102, 97, 108, 115, 101]) ∧
    serializeBool format b = toLEBytes 1 (if b then 1 else 0) ∧
    unserializeBool format (serializeBool format b) = some b := by
  refine ⟨by simp [serializeNumeric],
    by simp [unserializeNumeric, ConvToNum_ConvNumeric], ?_,
    by simp [serializeNumeric, h, serializePrimitiveNum],
    toLE_length w n,
    by simp [unserializeNumeric, h, unserializePrimitiveNum, take_toLE,
      fromLE_toLE],
    by simp [serializeBool],
    by simp [serializeBool, h], ?_⟩
  · intro c hc
    by_cases h0 : n = 0
    · simp [ConvNumeric, h0] at hc
      omega
    · simp [ConvNumeric, h0, List.mem_reverse, List.mem_map] at hc
      obtain ⟨d, hd, rfl⟩ := hc
      have := decDigitsAux_lt n n d hd
      omega
  · simp [unserializeBool, serializeBool, h]
    cases b <;> simp [toLEBytes, fromLEBytes]

/-- Witness for C5 at width 4, value 300, boolean true, format
`Internal`. -/
theorem c5_numeric_format_split_witness :
    serializeNumeric 4 SerializeFormat.internal 300 = toLEBytes 4 300 ∧
    unserializeNumeric 4 SerializeFormat.internal (toLEBytes 4 300) =
      some (300 % 256 ^ 4) ∧
    serializeBool SerializeFormat.user true = [116, 114, 117, 101] := by
  have h := c5_numeric_format_split 4 300 true SerializeFormat.internal
    (by decide)
  exact ⟨h.2.2.2.1, h.2.2.2.2.2.1, h.2.2.2.2.2.2.1⟩

instance exceptDecEq {ε γ : Type} [DecidableEq ε] [DecidableEq γ] :
    DecidableEq (Except ε γ) := fun x y =>
  match x, y with
  | Except.ok a, Except.ok b =>
    if h : a = b then isTrue (by rw [h])
    else isFalse (by intro hc; injection hc; contradiction)
  | Except.ok _, Except.error _ => isFalse (fun hc => Except.noConfusion hc)
  | Except.error _, Except.ok _ => isFalse (fun hc => Except.noConfusion hc)
  | Except.error d, Except.error e =>
    if h : d = e then isTrue (by rw [h])
    else isFalse (by intro hc; injection hc; contradiction)

/-- Counterexample to C2 as stated: the pair codec does not require
exactly two fields — on the three-field input `a NUL b NUL c NUL` (with
string element codecs, which always parse) it still produces the pair of
the first two fields; and on the non-empty single-field input `a`, where
neither the input is empty nor any element codec fails, it raises
`std::out_of_range` from `values.at(1)` instead of returning no value. -/
theorem c2_pair_counterexample :
    unserializePair stringUnserialize stringUnserialize
      SerializeFormat.internal [97, 0, 98, 0, 99, 0] =
      Except.ok (some ([97], [98])) ∧
    (splitUnescapeNulls [97, 0, 98, 0, 99, 0]).length = 3 ∧
    ¬(unserializePair stringUnserialize stringUnserialize
        SerializeFormat.internal [97, 0, 98, 0, 99, 0] = Except.ok none) ∧
    unserializePair stringUnserialize stringUnserialize
      SerializeFormat.internal [97] = Except.error AtError.outOfRange := by
  refine ⟨by decide, by decide, by decide, by decide⟩

/-- C2 as amended: the pair codec's unserialize returns no value on empty
input and whenever either of the first two fields fails to parse; it
raises `out_of_range` when a non-empty input splits into fewer than two
fields; and it produces a pair from the first two fields whenever both
parse, even if further fields are present. -/
theorem c2_pair_unserialize_amended {α β : Type}
    (u1 : SerializeFormat → List Nat → Option α)
    (u2 : SerializeFormat → List Nat → Option β)
    (format : SerializeFormat) (v : List Nat) :
    (v = [] →
      unserializePair u1 u2 format v = Except.ok none) ∧
    (∀ s0 s1 rest a b, splitUnescapeNulls v = s0 :: s1 :: rest →
      u1 format s0 = some a → u2 format s1 = some b →
      unserializePair u1 u2 format v = Except.ok (some (a, b))) ∧
    (∀ s0 s1 rest, splitUnescapeNulls v = s0 :: s1 :: rest →
      (u1 format s0 = none ∨ u2 format s1 = none) →
      unserializePair u1 u2 format v = Except.ok none) ∧
    (v ≠ [] → (splitUnescapeNulls v).length ≤ 1 →
      unserializePair u1 u2 format v = Except.error AtError.outOfRange) := by
  refine ⟨?_, ?_, ?_, ?_⟩
  · intro hv
    simp [unserializePair, hv]
  · intro s0 s1 rest a b hsplit h1 h2
    have hv : v ≠ [] := by
      intro hv
      rw [hv] at hsplit
      simp [splitUnescapeNulls, splitNulls] at hsplit
    rw [unserializePair, if_neg hv, hsplit]
    simp [h1, h2]
  · intro s0 s1 rest hsplit hfail
    have hv : v ≠ [] := by
      intro hv
      rw [hv] at hsplit
      simp [splitUnescapeNulls, splitNulls] at hsplit
    rw [unserializePair, if_neg hv, hsplit]
    rcases hfail with h | h
    · simp only [List.get?]
      rw [h]
    · simp only [List.get?]
      rw [h]
      cases u1 format s0 <;> rfl
  · intro hv hlen
    rw [unserializePair, if_neg hv]
    match hsplit : splitUnescapeNulls v with
    | [] => rfl
    | [s0] => rfl
    | s0 :: s1 :: rest =>
      rw [hsplit] at hlen
      simp at hlen

/-- Witness for the amended C2: a well-formed two-field input produces the
pair, the empty input produces no value, and a one-field input raises. -/
theorem c2_pair_unserialize_amended_witness :
    unserializePair stringUnserialize stringUnserialize
      SerializeFormat.internal [97, 0, 98, 0] = Except.ok (some ([97], [98])) ∧
    unserializePair stringUnserialize stringUnserialize
      SerializeFormat.internal [] = Except.ok none ∧
    unserializePair stringUnserialize stringUnserialize
      SerializeFormat.internal [97] = Except.error AtError.outOfRange := by
  have h := c2_pair_unserialize_amended stringUnserialize stringUnserialize
    SerializeFormat.internal
  refine ⟨(h [97, 0, 98, 0]).2.1 [97] [98] [] [97] [98] (by decide) rfl rfl,
    (h []).1 rfl,
    (h [97]).2.2.2 (by decide) (by decide)⟩

/-- A holder's private extension store
(`insp::flat_map<reference<ExtensionItem>, void*> extensions`), modelled
as an association list from the item's registry identity to the stored
value; the flat_map keeps one entry per item. -/
def ExtStore (γ : Type) : Type := List (Nat × γ)

/-- `ExtensionItem::get_raw`: look the item up in the container's internal
map; `NULL` (here `none`) when absent. -/
def get_raw {γ : Type} (k : Nat) : List (Nat × γ) → Option γ
  | [] => none
  | (k', v') :: rest => if k' = k then some v' else get_raw k rest

/-- Modelled from the spec: the body of `ExtensionItem::set_raw` is
outside the provided sources; per its header comment it sets the item in
the internal map and returns the old value (`NULL` when there was none),
freeing nothing. -/
def set_raw {γ : Type} (k : Nat) (v : γ) :
    List (Nat × γ) → List (Nat × γ) × Option γ
  | [] => ([(k, v)], none)
  | (k', v') :: rest =>
    if k' = k then ((k, v) :: rest, some v')
    else
      let r := set_raw k v rest
      ((k', v') :: r.1, r.2)

/-- Modelled from the spec: the body of `ExtensionItem::unset_raw` is
outside the provided sources; per its header comment it removes the item
from the internal map and returns the old value, freeing nothing. -/
def unset_raw {γ : Type} (k : Nat) :
    List (Nat × γ) → List (Nat × γ) × Option γ
  | [] => ([], none)
  | (k', v') :: rest =>
    if k' = k then (rest, some v')
    else
      let r := unset_raw k rest
      ((k', v') :: r.1, r.2)

/-- Outcome of one store mutation, making explicit what the operation
hands back to its caller (`returned`) and what it destroys through the
deleter (`freed`), alongside the new store. -/
structure StoreOp (γ : Type) where
  store : List (Nat × γ)
  returned : Option γ
  freed : Option γ
deriving DecidableEq

/-- `ExtensionItem::set_raw` as a `StoreOp`: the displaced value is
returned to the caller; nothing is freed. -/
def rawSetOp {γ : Type} (k : Nat) (v : γ) (s : List (Nat × γ)) : StoreOp γ :=
  ⟨(set_raw k v s).1, (set_raw k v s).2, none⟩

/-- `ExtensionItem::unset_raw` as a `StoreOp`: the removed value is
returned to the caller; nothing is freed. -/
def rawUnsetOp {γ : Type} (k : Nat) (s : List (Nat × γ)) : StoreOp γ :=
  ⟨(unset_raw k s).1, (unset_raw k s).2, none⟩

/-- `UnserializableSimpleExtItem::set`: calls `set_raw` and immediately
destroys the displaced value through the deleter (`Del del; del(old);`),
returning `void` — nothing comes back to the caller. -/
def simpleSet {γ : Type} (k : Nat) (v : γ) (s : List (Nat × γ)) : StoreOp γ :=
  ⟨(set_raw k v s).1, none, (set_raw k v s).2⟩

/-- `UnserializableSimpleExtItem::unset`: calls `unset_raw` and
immediately destroys the removed value through the deleter, returning
`void`. -/
def simpleUnset {γ : Type} (k : Nat) (s : List (Nat × γ)) : StoreOp γ :=
  ⟨(unset_raw k s).1, none, (unset_raw k s).2⟩

lemma set_raw_snd {γ : Type} (k : Nat) (v : γ) (s : List (Nat × γ)) :
    (set_raw k v s).2 = get_raw k s := by
  induction s with
  | nil => rfl
  | cons hd rest ih =>
    obtain ⟨k', v'⟩ := hd
    by_cases hk : k' = k
    · simp [set_raw, get_raw, hk]
    · simp [set_raw, get_raw, hk, ih]

lemma unset_raw_snd {γ : Type} (k : Nat) (s : List (Nat × γ)) :
    (unset_raw k s).2 = get_raw k s := by
  induction s with
  | nil => rfl
  | cons hd rest ih =>
    obtain ⟨k', v'⟩ := hd
    by_cases hk : k' = k
    · simp [unset_raw, get_raw, hk]
    · simp [unset_raw, get_raw, hk, ih]

lemma get_set_raw {γ : Type} (k : Nat) (v : γ) (s : List (Nat × γ)) :
    get_raw k (set_raw k v s).1 = some v := by
  induction s with
  | nil => simp [set_raw, get_raw]
  | cons hd rest ih =>
    obtain ⟨k', v'⟩ := hd
    by_cases hk : k' = k
    · simp [set_raw, get_raw, hk]
    · simp [set_raw, get_raw, hk, ih]

/-- Counterexample to C3 as stated: on a holder whose store already maps
the item to 10, the typed item's `set` does not return the displaced
value to the caller — it returns nothing and destroys 10 through the
deleter itself; likewise `unset` returns nothing and frees the removed
value. -/
theorem c3_typed_set_counterexample :
    ¬((simpleSet 1 20 [(1, 10)]).returned = some 10 ∧
      (simpleSet 1 20 [(1, 10)]).freed = none) ∧
    (simpleSet 1 20 [(1, 10)]).returned = (none : Option Nat) ∧
    (simpleSet 1 20 [(1, 10)]).freed = some 10 ∧
    (simpleUnset 1 [(1, 10)]).returned = (none : Option Nat) ∧
    (simpleUnset 1 [(1, 10)]).freed = some 10 := by
  refine ⟨by decide, by decide, by decide, by decide, by decide⟩

/-- C3 as amended: the caller-driven-release contract holds at the raw
store level — `ExtensionItem::set_raw` / `unset_raw` return the displaced
value and free nothing, so the store itself never destroys a value — but
the typed wrappers `UnserializableSimpleExtItem::set` / `unset` return
nothing and immediately release the displaced value through the item's
deleter. -/
theorem c3_displaced_value_amended {γ : Type} (k : Nat) (v : γ)
    (s : List (Nat × γ)) :
    (rawSetOp k v s).returned = get_raw k s ∧
    (rawSetOp k v s).freed = none ∧
    (rawUnsetOp k s).returned = get_raw k s ∧
    (rawUnsetOp k s).freed = none ∧
    (simpleSet k v s).returned = none ∧
    (simpleSet k v s).freed = get_raw k s ∧
    (simpleSet k v s).store = (rawSetOp k v s).store ∧
    (simpleUnset k s).returned = none ∧
    (simpleUnset k s).freed = get_raw k s ∧
    (simpleUnset k s).store = (rawUnsetOp k s).store :=
  ⟨set_raw_snd k v s, rfl, unset_raw_snd k s, rfl, rfl, set_raw_snd k v s,
    rfl, rfl, unset_raw_snd k s, rfl⟩

/-- `SimpleExtItem::serialize`: empty when no value is stored or when the
format is `FORMAT_NETWORK`; otherwise the item's codec output. -/
def simpleSerialize {γ : Type} (codec : SerializeFormat → γ → List Nat)
    (format : SerializeFormat) (item : Option γ) : List Nat :=
  match item with
  | none => []
  | some v => if format = SerializeFormat.network then [] else codec format v

/-- C6: for every codec, every format and every stored value, a Simple
typed item's `serialize` at `FORMAT_NETWORK` is the empty string,
regardless of what the codec could produce. -/
theorem c6_network_serialize_empty {γ : Type}
    (codec : SerializeFormat → γ → List Nat) (format : SerializeFormat)
    (item : Option γ) (h : format = SerializeFormat.network) :
    simpleSerialize codec format item = [] := by
  subst h
  cases item <;> simp [simpleSerialize]

/-- Witness for C6: the string codec would emit the stored byte for any
other format, yet `serialize` at `FORMAT_NETWORK` is empty. -/
theorem c6_network_serialize_empty_witness :
    simpleSerialize stringSerialize SerializeFormat.network (some [97]) = [] ∧
    stringSerialize SerializeFormat.network [97] = [97] :=
  ⟨c6_network_serialize_empty stringSerialize SerializeFormat.network
    (some [97]) rfl, rfl⟩

/-- `SimpleExtItem::unserialize`: returns immediately for
`FORMAT_NETWORK`; otherwise runs the codec and, only when it yields a
value, stores it via `set` (whose store effect is `set_raw`). -/
def simpleUnserialize {γ : Type}
    (unser : SerializeFormat → List Nat → Option γ) (k : Nat)
    (format : SerializeFormat) (container : List (Nat × γ))
    (value : List Nat) : List (Nat × γ) :=
  if format = SerializeFormat.network then container
  else
    match unser format value with
    | some t => (set_raw k t container).1
    | none => container

/-- C7: outside the network guard, if the item's codec reconstructs a
value from the text, `unserialize` stores it into the holder (the item
then maps to that value); if the codec fails, the holder's extension
store is left completely unchanged (for every format). -/
theorem c7_unserialize_store_effect {γ : Type}
    (unser : SerializeFormat → List Nat → Option γ) (k : Nat)
    (format : SerializeFormat) (s : List (Nat × γ)) (text : List Nat) :
    (∀ v, format ≠ SerializeFormat.network → unser format text = some v →
      simpleUnserialize unser k format s text = (set_raw k v s).1 ∧
      get_raw k (simpleUnserialize unser k format s text) = some v) ∧
    (unser format text = none →
      simpleUnserialize unser k format s text = s) := by
  constructor
  · intro v hf hu
    rw [simpleUnserialize, if_neg hf, hu]
    exact ⟨rfl, get_set_raw k v s⟩
  · intro hu
    by_cases hf : format = SerializeFormat.network
    · rw [simpleUnserialize, if_pos hf]
    · rw [simpleUnserialize, if_neg hf, hu]

/-- Witness for C7: the string codec parses `a` and the value lands in
the previously empty store; the stubbed `User*` codec fails and the store
is untouched. -/
theorem c7_unserialize_store_effect_witness :
    simpleUnserialize stringUnserialize 1 SerializeFormat.internal [] [97] =
      [(1, [97])] ∧
    get_raw 1 (simpleUnserialize stringUnserialize 1
      SerializeFormat.internal [] [97]) = some [97] ∧
    simpleUnserialize userPtrUnserialize 1 SerializeFormat.internal
      [(1, ())] [97] = [(1, ())] := by
  have h := (c7_unserialize_store_effect stringUnserialize 1
    SerializeFormat.internal [] [97]).1 [97] (by decide) rfl
  have h2 := (c7_unserialize_store_effect userPtrUnserialize 1
    SerializeFormat.internal [(1, ())] [97]).2 rfl
  exact ⟨h.1, h.2, h2⟩

/-- C9: `SimpleExtItem::unserialize` at `FORMAT_NETWORK` returns before
consulting the codec: the store comes back unchanged, and the result does
not depend on the codec at all, even one that would succeed on the
text. -/
theorem c9_network_unserialize_noop {γ : Type}
    (unser unser' : SerializeFormat → List Nat → Option γ) (k : Nat)
    (s : List (Nat × γ)) (text : List Nat) :
    simpleUnserialize unser k SerializeFormat.network s text = s ∧
    simpleUnserialize unser k SerializeFormat.network s text =
      simpleUnserialize unser' k SerializeFormat.network s text :=
  ⟨rfl, rfl⟩

/-- A holder as `JoinTimer::FromString` sees it: only whether
`IS_LOCAL(user)` yields a local user matters. -/
structure UserH where
  isLocal : Bool
deriving DecidableEq

/-- The `struct TimerSettings` of the conn-join module: an interval
(4-byte unsigned int) and a trigger time (8-byte time_t). -/
structure TimerSettings where
  interval : Nat
  trigger : Nat
deriving DecidableEq

/-- `Ext::Serialize<TimerSettings>` is declared as `SerializePrimitive`,
so serialization is the raw 16-byte object representation: 4 bytes of
interval, 4 alignment-padding bytes (modelled as zero), 8 bytes of
trigger. -/
def serializeTimerSettings (format : SerializeFormat) (ts : TimerSettings) :
    List Nat :=
  toLEBytes 4 ts.interval ++ List.replicate 4 0 ++ toLEBytes 8 ts.trigger

/-- `SerializePrimitive<TimerSettings>::unserialize`: reinterpret the
bytes at the struct's field offsets; never fails. -/
def unserializeTimerSettings (format : SerializeFormat) (v : List Nat) :
    Option TimerSettings :=
  some ⟨fromLEBytes (v.take 4), fromLEBytes ((v.drop 8).take 8)⟩

/-- The data reconstructed by `JoinTimer::FromString`: the channel list
string and the timer settings handed to the new `JoinTimer`. -/
structure JoinTimer where
  channels : List Nat
  interval : Nat
  trigger : Nat
deriving DecidableEq

/-- The `ModuleException` throws of `JoinTimer::FromString`, plus the
`std::out_of_range` that `dataSer.unserialize` (the pair codec) can let
escape. -/
inductive JTError where
  | noContainer
  | remoteUser
  | noExtItem
  | atOutOfRange
deriving DecidableEq

/-- `JoinTimer::FromString`: throws when the container is absent, when
the user is not local, or when the ext item is absent; otherwise
unserializes the `(TimerSettings, std::string)` pair and builds the
timer, returning `NULL` exactly when the pair codec does. -/
def joinTimerFromString (format : SerializeFormat) (value : List Nat)
    (container : Option UserH) (extItem : Option Unit) :
    Except JTError (Option JoinTimer) :=
  match container with
  | none => Except.error JTError.noContainer
  | some u =>
    if u.isLocal then
      match extItem with
      | none => Except.error JTError.noExtItem
      | some _ =>
        match unserializePair unserializeTimerSettings stringUnserialize
            format value with
        | Except.error _ => Except.error JTError.atOutOfRange
        | Except.ok none => Except.ok none
        | Except.ok (some (ts, chans)) =>
          Except.ok (some ⟨chans, ts.interval, ts.trigger⟩)
    else Except.error JTError.remoteUser

/-- C8: unserializing the join-timer value against an absent holder or a
remote (non-local) user raises a hard exception rather than returning no
value or a partial timer; a reconstructed timer can only come out of a
local holder with the ext item present. -/
theorem c8_jointimer_context_mismatch (format : SerializeFormat)
    (value : List Nat) (container : Option UserH) (extItem : Option Unit) :
    joinTimerFromString format value none extItem =
      Except.error JTError.noContainer ∧
    (∀ u, u.isLocal = false →
      joinTimerFromString format value (some u) extItem =
        Except.error JTError.remoteUser) ∧
    (∀ jt, joinTimerFromString format value container extItem =
        Except.ok (some jt) →
      ∃ u, container = some u ∧ u.isLocal = true ∧ extItem = some ()) := by
  refine ⟨rfl, ?_, ?_⟩
  · intro u hu
    simp [joinTimerFromString, hu]
  · intro jt hok
    match container with
    | none => simp [joinTimerFromString] at hok
    | some u =>
      match hu : u.isLocal with
      | false => simp [joinTimerFromString, hu] at hok
      | true =>
        match extItem with
        | none => simp [joinTimerFromString, hu] at hok
        | some () => exact ⟨u, rfl, hu, rfl⟩

/-- Witness for C8: an absent holder and a remote user both raise; a
local holder with the item present reconstructs the timer. -/
theorem c8_jointimer_context_mismatch_witness :
    joinTimerFromString SerializeFormat.internal [] none (some ()) =
      Except.error JTError.noContainer ∧
    joinTimerFromString SerializeFormat.internal [] (some ⟨false⟩)
      (some ()) = Except.error JTError.remoteUser := by
  have h := c8_jointimer_context_mismatch SerializeFormat.internal []
    (some ⟨false⟩) (some ())
  exact ⟨h.1, h.2.1 ⟨false⟩ rfl⟩

/-- `LocalIntExt::get`, modelled from the spec (its body is outside the
provided sources): the lightweight integer item stores the integer
directly in the opaque pointer slot, so reading an absent entry (a NULL
pointer) yields 0. -/
def intGet (k : Nat) (s : List (Nat × Int)) : Int :=
  (get_raw k s).getD 0

/-- `LocalIntExt::set`, modelled from the spec (its body is outside the
provided sources): stores the integer in the pointer slot and returns the
displaced integer; since the NULL pointer encodes both zero and absent —
the in-header `unset` is literally `set(container, 0)` — storing zero
removes the entry. -/
def intSet (k : Nat) (v : Int) (s : List (Nat × Int)) :
    List (Nat × Int) × Int :=
  if v ≠ 0 then ((set_raw k v s).1, ((set_raw k v s).2).getD 0)
  else ((unset_raw k s).1, ((unset_raw k s).2).getD 0)

/-- `LocalIntExt::unset`, inline in the header: exactly
`set(container, 0)` with the returned previous value discarded (`unset`
returns `void`). -/
def intUnset (k : Nat) (s : List (Nat × Int)) : List (Nat × Int) :=
  (intSet k 0 s).1

lemma get_raw_of_not_mem {γ : Type} (k : Nat) (s : List (Nat × γ))
    (h : k ∉ s.map Prod.fst) : get_raw k s = none := by
  induction s with
  | nil => rfl
  | cons hd rest ih =>
    obtain ⟨k', v'⟩ := hd
    have h1 : k' ≠ k := fun he => h (by simp [he])
    have h2 : k ∉ rest.map Prod.fst := fun hm => h (by simp [hm])
    rw [get_raw, if_neg h1]
    exact ih h2

lemma get_raw_unset_raw {γ : Type} (k : Nat) (s : List (Nat × γ))
    (h : (s.map Prod.fst).Nodup) : get_raw k (unset_raw k s).1 = none := by
  induction s with
  | nil => rfl
  | cons hd rest ih =>
    obtain ⟨k', v'⟩ := hd
    simp [List.nodup_cons] at h
    by_cases hk : k' = k
    · rw [unset_raw, if_pos hk]
      subst hk
      exact get_raw_of_not_mem k' rest (by simpa using h.1)
    · rw [unset_raw, if_neg hk]
      simp only [get_raw, if_neg hk]
      exact ih h.2

/-- C10: on a store with one entry per item (the flat_map invariant),
`LocalIntExt::unset` is exactly `set(container, 0)` with the displaced
integer discarded rather than returned — after it, `get` yields 0 and
the entry is gone. -/
theorem c10_intext_unset_is_set_zero (k : Nat) (s : List (Nat × Int))
    (h : (s.map Prod.fst).Nodup) :
    intUnset k s = (intSet k 0 s).1 ∧
    intGet k (intUnset k s) = 0 ∧
    (intSet k 0 s).1 = (unset_raw k s).1 ∧
    (intSet k 0 s).2 = ((unset_raw k s).2).getD 0 := by
  refine ⟨rfl, ?_, by simp [intSet], by simp [intSet]⟩
  have hset : intUnset k s = (unset_raw k s).1 := by
    simp [intUnset, intSet]
  rw [hset, intGet, get_raw_unset_raw k s h]
  rfl

/-- Witness for C10 on a concrete two-entry store. -/
theorem c10_intext_unset_is_set_zero_witness :
    intGet 1 (intUnset 1 [(1, 5), (2, 7)]) = 0 ∧
    intUnset 1 [(1, 5), (2, 7)] = [(2, 7)] :=
  ⟨(c10_intext_unset_is_set_zero 1 [(1, 5), (2, 7)] (by decide)).2.1,
    by decide⟩
